import Mathlib

/-!
# netstate: the Linux link-state watcher

A shallow embedding of `watcher_linux.go` and `watcher_others.go` of the
`netstate` package: the operational-state mapper `operStateChange`, the
change-set builder `process`, and the receive loop of `Watcher.watch` as a
function of the behaviour of the netlink connection and of the context.
-/

namespace Netstate

/-! ## Data model -/

/-- A `Change` is a numeric Go type (the literal `0` is returned as one). -/
abbrev Change := Nat

/-- The `rtnetlink.OperationalState` code of a link message (a `uint8`). -/
abbrev OperationalState := Nat

/-- Modelled from the spec: the `Change` constants are declared in a file of the
package that is not among the files embedded here, so their numeric values are
not known; they are taken as a parameter. The spec lists the seven link states
and the wildcard `Any`. -/
structure ChangeConsts where
  LinkAny : Change
  LinkUnknown : Change
  LinkNotPresent : Change
  LinkDown : Change
  LinkLowerLayerDown : Change
  LinkTesting : Change
  LinkDormant : Change
  LinkUp : Change
  deriving DecidableEq, Repr

/-- Constant `rtnetlink.OperStateUnknown`. Package `rtnetlink` numbers the
operational states from 0 in the order of RFC 2863, the kernel's `IF_OPER_*`. -/
def OperStateUnknown : OperationalState := 0
/-- Constant `rtnetlink.OperStateNotPresent`. -/
def OperStateNotPresent : OperationalState := 1
/-- Constant `rtnetlink.OperStateDown`. -/
def OperStateDown : OperationalState := 2
/-- Constant `rtnetlink.OperStateLowerLayerDown`. -/
def OperStateLowerLayerDown : OperationalState := 3
/-- Constant `rtnetlink.OperStateTesting`. -/
def OperStateTesting : OperationalState := 4
/-- Constant `rtnetlink.OperStateDormant`. -/
def OperStateDormant : OperationalState := 5
/-- Constant `rtnetlink.OperStateUp`. -/
def OperStateUp : OperationalState := 6

/-- A received `rtnetlink.Message`. `process` type-switches on the message and
reads two fields of a link message, `Attributes.Name` and
`Attributes.OperationalState` (a link message is taken with its attributes
present, as the kernel sends it); every other message type falls through the
switch. -/
inductive Message where
  | LinkMessage (Name : String) (OperationalState : OperationalState)
  | other (kind : Nat)
  deriving DecidableEq, Repr

/-- A Go `map[string][]Change`, kept as an association list with one entry per
key, in order of first insertion. -/
abbrev changeSet := List (String × List Change)

/-- The Go read `changes[iface]`: the stored slice, or the nil slice for a key
that is absent. -/
def changeSet.index : changeSet → String → List Change
  | [], _ => []
  | (k, v) :: rest, iface => if k = iface then v else changeSet.index rest iface

/-- The Go assignment `changes[iface] = v`: replaces the value of an existing
key, or adds the key. -/
def changeSet.assign : changeSet → String → List Change → changeSet
  | [], iface, v => [(iface, v)]
  | (k, old) :: rest, iface, v =>
    if k = iface then (k, v) :: rest else (k, old) :: changeSet.assign rest iface v

/-- The keys of a change-set. -/
def changeSet.keys (changes : changeSet) : List String := changes.map Prod.fst

/-! ## `operStateChange` and `process` -/

/-- Converts a `rtnetlink.OperationalState` to a `Change` value. -/
def operStateChange (K : ChangeConsts) (s : OperationalState) : Change × Bool :=
  if s = OperStateUnknown then (K.LinkUnknown, true)
  else if s = OperStateNotPresent then (K.LinkNotPresent, true)
  else if s = OperStateDown then (K.LinkDown, true)
  else if s = OperStateLowerLayerDown then (K.LinkLowerLayerDown, true)
  else if s = OperStateTesting then (K.LinkTesting, true)
  else if s = OperStateDormant then (K.LinkDormant, true)
  else if s = OperStateUp then (K.LinkUp, true)
  else (0, false)

/-- One iteration of the `for _, m := range msgs` loop of `process`. -/
def processStep (K : ChangeConsts) (changes : changeSet) (m : Message) : changeSet :=
  match m with
  | .LinkMessage iface s =>
    match operStateChange K s with
    | (_, false) => changes
    | (c, true) => changeSet.assign changes iface (changeSet.index changes iface ++ [c])
  | .other _ => changes

/-- Handles received route netlink messages and produces a `changeSet`. -/
def process (K : ChangeConsts) (msgs : List Message) : changeSet :=
  msgs.foldl (processStep K) []

/-! ## Errors -/

/-- A Go `error` value: a plain error with its text, or the result of
`fmt.Errorf` with a trailing `%w` verb, which keeps the wrapped error. -/
inductive Error where
  | plain (text : String)
  | wrapped (pfx : String) (cause : Error)
  deriving DecidableEq, Repr

/-- The text `err.Error()` gives. -/
def Error.text : Error → String
  | .plain t => t
  | .wrapped pfx cause => pfx ++ cause.text

/-- The result of `errors.Unwrap`. -/
def Error.unwrap : Error → Option Error
  | .plain _ => none
  | .wrapped _ cause => some cause

/-- The sentinel `os.ErrNotExist`. -/
def ErrNotExist : Error := .plain "file does not exist"

/-! ## `Watcher.watch` on Linux -/

/-- What one call of `c.Receive()` gives the loop: a batch of messages, or an
error together with what `ctx.Err() != nil` evaluates to when the loop checks
it right after (the context is taken to stay so until `watch` has returned). -/
inductive Received where
  | msgs (batch : List Message)
  | err (e : Error) (ctxErr : Bool)
  deriving DecidableEq, Repr

/-- The behaviour of the outside world during one call of `watch`: the result
of `rtnetlink.Dial`, the results of the successive `c.Receive()` calls (after
the last one listed, `Receive` blocks for good), and the error
`c.SetReadDeadline(deadlineNow)` gives when the observer calls it. -/
structure Conn where
  dial : Option Error
  receives : List Received
  setReadDeadline : Option Error
  deriving DecidableEq, Repr

/-- The goroutine started with `eg.Go`: still blocked on `<-ctx.Done()`, or
returned with its error. -/
inductive Observer where
  | notStarted
  | blocked
  | returned (err : Option Error)
  deriving DecidableEq, Repr

/-- The body of the goroutine given to `eg.Go`, as a function of whether the
context is done: it waits for `ctx.Done()`, then sets the read deadline and
returns the wrapped error of that call, or nil. -/
def observer (ctxDone : Bool) (setReadDeadline : Option Error) : Observer :=
  if ctxDone then
    match setReadDeadline with
    | some err => .returned (some (.wrapped "netstate: failed to interrupt watcher: " err))
    | none => .returned none
  else .blocked

/-- What the goroutine running `watch` does, in program order. -/
inductive Event where
  | dial
  | go
  | receive
  | notify (changes : changeSet)
  | wait
  | close
  deriving DecidableEq, Repr

/-- One run of `watch`: the calls made, the value returned (`none` while the
call has not returned: it is blocked in `Receive`), and the state of the
observer goroutine at that point. -/
structure Run where
  events : List Event
  result : Option (Option Error)
  observer : Observer
  deriving DecidableEq, Repr

/-- The `for` loop of `watch`, with the deferred `c.Close()` run on return. -/
def watchLoop (K : ChangeConsts) (setReadDeadline : Option Error) : List Received → Run
  | [] => ⟨[.receive], none, observer false setReadDeadline⟩
  | .msgs batch :: rest =>
    let r := watchLoop K setReadDeadline rest
    ⟨.receive :: .notify (process K batch) :: r.events, r.result, r.observer⟩
  | .err e ctxErr :: _ =>
    if ctxErr then
      -- Context canceled: `return eg.Wait()`.
      match observer true setReadDeadline with
      | .returned err => ⟨[.receive, .wait, .close], some err, .returned err⟩
      | o => ⟨[.receive, .wait], none, o⟩
    else
      ⟨[.receive, .close],
        some (some (.wrapped "netstate: watcher failed to listen for route netlink messages: " e)),
        observer false setReadDeadline⟩

/-- The OS-specific portion of `Watch`, on Linux. -/
def watch (K : ChangeConsts) (conn : Conn) : Run :=
  match conn.dial with
  | some err =>
    ⟨[.dial], some (some (.wrapped "netstate: watcher failed to dial route netlink: " err)),
      .notStarted⟩
  | none =>
    let r := watchLoop K conn.setReadDeadline conn.receives
    ⟨.dial :: .go :: r.events, r.result, r.observer⟩

/-- The `notify` calls of a run, in order. -/
def notifyCalls : List Event → List changeSet
  | [] => []
  | .notify changes :: rest => changes :: notifyCalls rest
  | _ :: rest => notifyCalls rest

/-! ## `Watcher.watch` on other platforms -/

/-- The Go verb `%q` applied to a value of `runtime.GOOS` (a lower-case word:
nothing to escape). -/
def quote (s : String) : String := "\"" ++ s ++ "\""

/-- The OS-specific portion of `Watch`, on every platform but Linux: the
context is not looked at. -/
def watchOthers (GOOS : String) (_ctxDone : Bool) : Run :=
  ⟨[], some (some (.wrapped ("netstate: Watcher not implemented on " ++ quote GOOS ++ ": ")
    ErrNotExist)), .notStarted⟩

/-! ## Subscriptions and `notify` -/

/-- Modelled from the spec: the filter of a subscription (the registry lives in
a file that is not among the files embedded here). "`changeFilter` is either
`Any` or a finite set of specific `Change` values." -/
inductive Filter where
  | any
  | only (changes : List Change)
  deriving DecidableEq, Repr

/-- Modelled from the spec: whether a filter lets a change through: "whose value
is in the subscription's filter (or unconditionally if filter is `Any`)". -/
def Filter.admits : Filter → Change → Bool
  | .any, _ => true
  | .only changes, c => changes.contains c

/-- Modelled from the spec: "a relation `(interfaceName, changeFilter,
deliveryChannel)`"; the channel is kept as the sequence of values sent on it. -/
structure Subscription where
  iface : String
  filter : Filter
  delivered : List Change
  deriving DecidableEq, Repr

/-- Modelled from the spec: delivery of one `(interfaceName, changes)` pair to
one subscription: "deliver every change in `changes` (in batch order) whose
value is in the subscription's filter", when the interface name matches. -/
def deliver (iface : String) (changes : List Change) (s : Subscription) : Subscription :=
  if s.iface = iface then
    { s with delivered := s.delivered ++ changes.filter s.filter.admits }
  else s

/-- Modelled from the spec: `notify(changeSet)`, which is not among the files
embedded here: "for every `(interfaceName, changes)` pair in the change-set, look up all
subscriptions whose interface name matches; for each matching subscription,
deliver every change". -/
def notify (subs : List Subscription) (changes : changeSet) : List Subscription :=
  changes.foldl (fun subs p => subs.map (deliver p.1 p.2)) subs

/-- Modelled from the spec: the public `Watch`, which is not among the files
embedded here: it runs `watch`, whose `notify` calls reach the registry in
order. -/
def Watch (K : ChangeConsts) (subs : List Subscription) (conn : Conn) :
    List Subscription × Option (Option Error) :=
  let r := watch K conn
  ((notifyCalls r.events).foldl notify subs, r.result)

/-! ## Vocabulary of the specification -/

/-- The seven known operational-state codes. -/
def knownOperStates : List OperationalState :=
  [OperStateUnknown, OperStateNotPresent, OperStateDown, OperStateLowerLayerDown,
    OperStateTesting, OperStateDormant, OperStateUp]

/-- The state codes of the link messages of a batch that name interface `n` and
carry a known code, in batch order. -/
def knownStatesFor (n : String) (msgs : List Message) : List OperationalState :=
  msgs.filterMap fun m =>
    match m with
    | .LinkMessage iface s => if iface = n ∧ s ∈ knownOperStates then some s else none
    | .other _ => none

/-- The changes the specification lists for interface `n`: the known state
codes of its link messages, each mapped with `operStateChange`. -/
def changesFor (K : ChangeConsts) (n : String) (msgs : List Message) : List Change :=
  (knownStatesFor n msgs).map fun s => (operStateChange K s).1

/-- Whether `process` retains a message: a link message with a known code. -/
def retained : Message → Bool
  | .LinkMessage _ s => decide (s ∈ knownOperStates)
  | .other _ => false

/-- The batches received before the first failed `Receive`. -/
def batchesReceived : List Received → List (List Message)
  | .msgs batch :: rest => batch :: batchesReceived rest
  | _ => []

/-- The calls the loop makes over a run of successful receives: a `Receive`
and a `notify` per batch. -/
def cycles (K : ChangeConsts) (batches : List (List Message)) : List Event :=
  batches.flatMap fun b => [.receive, .notify (process K b)]

/-- What a `notify` call sends to one subscription: the pairs of the
change-set, each offered to it in turn. -/
def notifyOne (changes : changeSet) (s : Subscription) : Subscription :=
  changes.foldl (fun s p => deliver p.1 p.2 s) s

/-- The constants used at concrete inputs (any values would do). -/
def sampleConsts : ChangeConsts :=
  { LinkAny := 0, LinkUnknown := 1, LinkNotPresent := 2, LinkDown := 3,
    LinkLowerLayerDown := 4, LinkTesting := 5, LinkDormant := 6, LinkUp := 7 }

/-! ## Lemmas on change-sets -/

theorem mem_knownOperStates (s : OperationalState) :
    s ∈ knownOperStates ↔ s = 0 ∨ s = 1 ∨ s = 2 ∨ s = 3 ∨ s = 4 ∨ s = 5 ∨ s = 6 := by
  simp [knownOperStates, OperStateUnknown, OperStateNotPresent, OperStateDown,
    OperStateLowerLayerDown, OperStateTesting, OperStateDormant, OperStateUp]

theorem ok_operStateChange (K : ChangeConsts) (s : OperationalState) :
    (operStateChange K s).2 = decide (s ∈ knownOperStates) := by
  by_cases h : s ∈ knownOperStates
  · rw [decide_eq_true h]
    rw [mem_knownOperStates] at h
    rcases h with h | h | h | h | h | h | h <;> subst h <;> rfl
  · rw [decide_eq_false h]
    rw [mem_knownOperStates] at h
    simp only [not_or] at h
    obtain ⟨h0, h1, h2, h3, h4, h5, h6⟩ := h
    simp [operStateChange, OperStateUnknown, OperStateNotPresent, OperStateDown,
      OperStateLowerLayerDown, OperStateTesting, OperStateDormant, OperStateUp,
      h0, h1, h2, h3, h4, h5, h6]

theorem operStateChange_unknown (K : ChangeConsts) (s : OperationalState)
    (h : s ∉ knownOperStates) : operStateChange K s = (0, false) := by
  rw [mem_knownOperStates] at h
  simp only [not_or] at h
  obtain ⟨h0, h1, h2, h3, h4, h5, h6⟩ := h
  simp [operStateChange, OperStateUnknown, OperStateNotPresent, OperStateDown,
    OperStateLowerLayerDown, OperStateTesting, OperStateDormant, OperStateUp,
    h0, h1, h2, h3, h4, h5, h6]

theorem processStep_link (K : ChangeConsts) (changes : changeSet) (iface : String)
    (s : OperationalState) :
    processStep K changes (.LinkMessage iface s) =
      if s ∈ knownOperStates then
        changeSet.assign changes iface (changeSet.index changes iface ++ [(operStateChange K s).1])
      else changes := by
  have hok := ok_operStateChange K s
  unfold processStep
  by_cases h : s ∈ knownOperStates
  · rw [decide_eq_true h] at hok
    rw [if_pos h]
    rcases hp : operStateChange K s with ⟨c, ok⟩
    rw [hp] at hok
    simp only at hok
    subst hok
    simp only [hp]
  · rw [decide_eq_false h] at hok
    rw [if_neg h]
    rcases hp : operStateChange K s with ⟨c, ok⟩
    rw [hp] at hok
    simp only at hok
    subst hok
    simp only [hp]

theorem index_assign (changes : changeSet) (k n : String) (v : List Change) :
    changeSet.index (changeSet.assign changes k v) n =
      if k = n then v else changeSet.index changes n := by
  induction changes with
  | nil => simp [changeSet.assign, changeSet.index]
  | cons p rest ih =>
    obtain ⟨k0, v0⟩ := p
    by_cases hk : k0 = k
    · subst hk
      by_cases hn : k0 = n <;> simp [changeSet.assign, changeSet.index, hn]
    · by_cases hn : k0 = n
      · subst hn
        have : ¬ k = k0 := fun h => hk h.symm
        simp [changeSet.assign, changeSet.index, hk, this]
      · simp [changeSet.assign, changeSet.index, hk, hn, ih]

theorem index_processStep (K : ChangeConsts) (changes : changeSet) (n : String) (m : Message) :
    changeSet.index (processStep K changes m) n =
      changeSet.index changes n ++ changesFor K n [m] := by
  cases m with
  | other kind => simp [processStep, changesFor, knownStatesFor]
  | LinkMessage iface s =>
    rw [processStep_link]
    by_cases h : s ∈ knownOperStates
    · by_cases hn : iface = n
      · subst hn
        simp [h, index_assign, changesFor, knownStatesFor]
      · simp [h, hn, index_assign, changesFor, knownStatesFor]
    · simp [h, changesFor, knownStatesFor]

theorem changesFor_cons (K : ChangeConsts) (n : String) (m : Message) (msgs : List Message) :
    changesFor K n (m :: msgs) = changesFor K n [m] ++ changesFor K n msgs := by
  simp only [changesFor, knownStatesFor, ← List.map_append, ← List.filterMap_append]
  rfl

theorem index_foldl_processStep (K : ChangeConsts) (n : String) (msgs : List Message)
    (changes : changeSet) :
    changeSet.index (msgs.foldl (processStep K) changes) n =
      changeSet.index changes n ++ changesFor K n msgs := by
  induction msgs generalizing changes with
  | nil => simp [changesFor, knownStatesFor]
  | cons m rest ih =>
    rw [List.foldl_cons, ih, index_processStep, changesFor_cons K n m rest, List.append_assoc]

theorem processStep_skipped (K : ChangeConsts) (changes : changeSet) (m : Message)
    (h : retained m = false) : processStep K changes m = changes := by
  cases m with
  | other kind => rfl
  | LinkMessage iface s =>
    have hs : s ∉ knownOperStates := by simpa [retained] using h
    rw [processStep_link, if_neg hs]

theorem foldl_processStep_filter (K : ChangeConsts) (msgs : List Message) (changes : changeSet) :
    (msgs.filter retained).foldl (processStep K) changes =
      msgs.foldl (processStep K) changes := by
  induction msgs generalizing changes with
  | nil => rfl
  | cons m rest ih =>
    cases h : retained m
    · rw [List.filter_cons_of_neg (by simp [h]), List.foldl_cons, processStep_skipped K _ _ h, ih]
    · rw [List.filter_cons_of_pos (by simp [h]), List.foldl_cons, List.foldl_cons, ih]

/-! ## Lemmas on the receive loop -/

theorem watchLoop_msgs_append (K : ChangeConsts) (dl : Option Error)
    (batches : List (List Message)) (rest : List Received) :
    watchLoop K dl (batches.map .msgs ++ rest) =
      ⟨cycles K batches ++ (watchLoop K dl rest).events, (watchLoop K dl rest).result,
        (watchLoop K dl rest).observer⟩ := by
  induction batches with
  | nil => simp [cycles]
  | cons b bs ih =>
    have h : watchLoop K dl (Received.msgs b :: (bs.map .msgs ++ rest)) =
        ⟨.receive :: .notify (process K b) :: (watchLoop K dl (bs.map .msgs ++ rest)).events,
          (watchLoop K dl (bs.map .msgs ++ rest)).result,
          (watchLoop K dl (bs.map .msgs ++ rest)).observer⟩ := rfl
    rw [List.map_cons, List.cons_append, h, ih]
    simp [cycles, List.flatMap_cons]

theorem notifyCalls_append (xs ys : List Event) :
    notifyCalls (xs ++ ys) = notifyCalls xs ++ notifyCalls ys := by
  induction xs with
  | nil => rfl
  | cons x xs ih => cases x <;> simp [notifyCalls, ih]

theorem notifyCalls_cycles (K : ChangeConsts) (batches : List (List Message)) :
    notifyCalls (cycles K batches) = batches.map (process K) := by
  induction batches with
  | nil => rfl
  | cons b bs ih =>
    have h : cycles K (b :: bs) = [.receive, .notify (process K b)] ++ cycles K bs := by
      simp [cycles, List.flatMap_cons]
    rw [h, notifyCalls_append, ih]
    rfl

theorem notifyCalls_watchLoop (K : ChangeConsts) (dl : Option Error) (recvs : List Received) :
    notifyCalls (watchLoop K dl recvs).events = (batchesReceived recvs).map (process K) := by
  induction recvs with
  | nil => rfl
  | cons r rest ih =>
    cases r with
    | msgs b => simp [watchLoop, notifyCalls, batchesReceived, ih]
    | err e ctxErr =>
      cases ctxErr <;> cases dl <;> rfl

theorem notifyCalls_watch (K : ChangeConsts) (conn : Conn) (h : conn.dial = none) :
    notifyCalls (watch K conn).events = (batchesReceived conn.receives).map (process K) := by
  simp [watch, h, notifyCalls, notifyCalls_watchLoop]

/-! ## Lemmas on the registry -/

theorem keys_assign (changes : changeSet) (k : String) (v : List Change) :
    changeSet.keys (changeSet.assign changes k v) =
      if k ∈ changeSet.keys changes then changeSet.keys changes
      else changeSet.keys changes ++ [k] := by
  induction changes with
  | nil => simp [changeSet.assign, changeSet.keys]
  | cons p rest ih =>
    obtain ⟨k0, v0⟩ := p
    simp only [changeSet.keys] at ih
    by_cases hk : k0 = k
    · subst hk
      simp [changeSet.assign, changeSet.keys]
    · have hk2 : ¬ k = k0 := fun h => hk h.symm
      by_cases hm : k ∈ List.map Prod.fst rest
      · simp [changeSet.assign, changeSet.keys, hk, hk2, ih, hm]
      · simp [changeSet.assign, changeSet.keys, hk, hk2, ih, hm]

theorem keys_assign_nodup (changes : changeSet) (k : String) (v : List Change)
    (h : (changeSet.keys changes).Nodup) :
    (changeSet.keys (changeSet.assign changes k v)).Nodup := by
  rw [keys_assign]
  by_cases hm : k ∈ changeSet.keys changes
  · simpa [hm] using h
  · simp only [hm, if_false]
    rw [List.nodup_append]
    refine ⟨h, List.nodup_singleton k, ?_⟩
    intro a ha hb
    simp only [List.mem_singleton] at hb
    exact hm (hb ▸ ha)

theorem keys_processStep_nodup (K : ChangeConsts) (changes : changeSet) (m : Message)
    (h : (changeSet.keys changes).Nodup) :
    (changeSet.keys (processStep K changes m)).Nodup := by
  cases m with
  | other kind => exact h
  | LinkMessage iface s =>
    rw [processStep_link]
    by_cases hs : s ∈ knownOperStates
    · simpa [hs] using keys_assign_nodup changes iface _ h
    · simpa [hs] using h

theorem keys_foldl_processStep_nodup (K : ChangeConsts) (msgs : List Message)
    (changes : changeSet) (h : (changeSet.keys changes).Nodup) :
    (changeSet.keys (msgs.foldl (processStep K) changes)).Nodup := by
  induction msgs generalizing changes with
  | nil => exact h
  | cons m rest ih => exact ih _ (keys_processStep_nodup K changes m h)

theorem keys_process_nodup (K : ChangeConsts) (msgs : List Message) :
    (changeSet.keys (process K msgs)).Nodup :=
  keys_foldl_processStep_nodup K msgs [] List.nodup_nil

theorem getElem?_notify (changes : changeSet) (subs : List Subscription) (i : Nat) :
    (notify subs changes)[i]? = subs[i]?.map (notifyOne changes) := by
  induction changes generalizing subs with
  | nil =>
    have h : notifyOne [] = id := rfl
    simp [notify, h]
  | cons p rest ih =>
    have h := ih (subs.map (deliver p.1 p.2))
    simp only [notify, List.foldl_cons] at h ⊢
    rw [h, List.getElem?_map]
    cases subs[i]? <;> simp [notifyOne]

theorem notifyOne_absent (changes : changeSet) (s : Subscription)
    (h : s.iface ∉ changeSet.keys changes) : notifyOne changes s = s := by
  induction changes with
  | nil => rfl
  | cons p rest ih =>
    simp only [changeSet.keys, List.map_cons, List.mem_cons, not_or] at h
    have hp : ¬ s.iface = p.1 := h.1
    have hd : deliver p.1 p.2 s = s := by simp [deliver, hp]
    simp only [notifyOne, List.foldl_cons, hd]
    exact ih h.2

theorem notifyOne_any (changes : changeSet) (s : Subscription) (hf : s.filter = .any)
    (h : (changeSet.keys changes).Nodup) :
    notifyOne changes s =
      { s with delivered := s.delivered ++ changeSet.index changes s.iface } := by
  induction changes with
  | nil => simp [notifyOne, changeSet.index]
  | cons p rest ih =>
    obtain ⟨k, v⟩ := p
    simp only [changeSet.keys, List.map_cons, List.nodup_cons] at h
    by_cases hk : k = s.iface
    · have hall : v.filter s.filter.admits = v := by
        rw [hf]
        exact List.filter_eq_self.mpr (fun _ _ => rfl)
      have hd : deliver k v s = { s with delivered := s.delivered ++ v } := by
        simp [deliver, hk, hall]
      have habs : (deliver k v s).iface ∉ changeSet.keys rest := by
        rw [hd]
        simpa [changeSet.keys, ← hk] using h.1
      have := notifyOne_absent rest (deliver k v s) habs
      simp only [notifyOne, List.foldl_cons] at this ⊢
      rw [this, hd]
      simp [changeSet.index, hk]
    · have hk2 : ¬ s.iface = k := fun e => hk e.symm
      have hd : deliver k v s = s := by simp [deliver, hk2]
      have := ih h.2
      simp only [notifyOne, List.foldl_cons, hd] at this ⊢
      rw [this]
      simp [changeSet.index, hk]

theorem getElem?_foldl_notify (K : ChangeConsts) (batches : List (List Message))
    (subs : List Subscription) (i : Nat) (s : Subscription) (hs : subs[i]? = some s)
    (hf : s.filter = .any) :
    ((batches.map (process K)).foldl notify subs)[i]? =
      some { s with delivered := s.delivered ++
        batches.flatMap fun b => changeSet.index (process K b) s.iface } := by
  induction batches generalizing subs s with
  | nil => simp [hs]
  | cons b bs ih =>
    have h1 : (notify subs (process K b))[i]? =
        some { s with delivered := s.delivered ++ changeSet.index (process K b) s.iface } := by
      rw [getElem?_notify, hs, Option.map_some', notifyOne_any _ _ hf (keys_process_nodup K b)]
    have := ih (notify subs (process K b)) _ h1 hf
    simp only [List.map_cons, List.foldl_cons, List.flatMap_cons]
    rw [this]
    simp [List.append_assoc]

/-! ## The mapper -/

/-- C1: `operStateChange` maps each of the seven known operational-state codes
to its documented `Change`, with `ok = true`. -/
theorem operStateChange_known (K : ChangeConsts) :
    operStateChange K OperStateUnknown = (K.LinkUnknown, true) ∧
    operStateChange K OperStateNotPresent = (K.LinkNotPresent, true) ∧
    operStateChange K OperStateDown = (K.LinkDown, true) ∧
    operStateChange K OperStateLowerLayerDown = (K.LinkLowerLayerDown, true) ∧
    operStateChange K OperStateTesting = (K.LinkTesting, true) ∧
    operStateChange K OperStateDormant = (K.LinkDormant, true) ∧
    operStateChange K OperStateUp = (K.LinkUp, true) :=
  ⟨rfl, rfl, rfl, rfl, rfl, rfl, rfl⟩

/-- C2: for every code `s`, `operStateChange` gives `ok = true` exactly when `s`
is one of the seven known codes; for every other code it gives `(0, false)`,
and `process` leaves the change-set as it was: no value is produced for it. -/
theorem operStateChange_ok_iff_known (K : ChangeConsts) (s : OperationalState) :
    ((operStateChange K s).2 = true ↔ s ∈ knownOperStates) ∧
    (s ∉ knownOperStates →
      operStateChange K s = (0, false) ∧
      (∀ (changes : changeSet) (iface : String),
        processStep K changes (.LinkMessage iface s) = changes) ∧
      ∀ iface : String, process K [.LinkMessage iface s] = []) := by
  refine ⟨?_, fun h => ⟨operStateChange_unknown K s h, ?_, ?_⟩⟩
  · rw [ok_operStateChange]
    exact decide_eq_true_iff
  · intro changes iface
    rw [processStep_link, if_neg h]
  · intro iface
    simp only [process, List.foldl_cons, List.foldl_nil]
    rw [processStep_link, if_neg h]

/-- C2 at the codes 6, 7 and 255: the first is known, the other two are not and
produce nothing. -/
theorem operStateChange_ok_iff_known_witness :
    (operStateChange sampleConsts 6).2 = true ∧
    operStateChange sampleConsts 7 = (0, false) ∧
    process sampleConsts [.LinkMessage "eth0" 255] = [] :=
  ⟨(operStateChange_ok_iff_known sampleConsts 6).1.mpr (by decide),
    ((operStateChange_ok_iff_known sampleConsts 7).2 (by decide)).1,
    ((operStateChange_ok_iff_known sampleConsts 255).2 (by decide)).2.2 "eth0"⟩

/-! ## The change-set builder -/

/-- C3: for every batch and every interface name `n`, `process(msgs)[n]` is the
sequence obtained from the link messages of the batch that name `n` and carry a
known code, in batch order, each mapped with `operStateChange`; a batch of `N`
link messages for `n` with known codes gives a list of length `N`, in arrival
order, repeated states kept. -/
theorem process_index (K : ChangeConsts) (msgs : List Message) (n : String)
    (states : List OperationalState) (hknown : ∀ s ∈ states, s ∈ knownOperStates) :
    changeSet.index (process K msgs) n = changesFor K n msgs ∧
    (changeSet.index (process K msgs) n).length = (knownStatesFor n msgs).length ∧
    changeSet.index (process K (states.map (Message.LinkMessage n))) n =
      states.map (fun s => (operStateChange K s).1) ∧
    (changeSet.index (process K (states.map (Message.LinkMessage n))) n).length =
      states.length := by
  have h1 : ∀ l : List Message, changeSet.index (process K l) n = changesFor K n l := by
    intro l
    have := index_foldl_processStep K n l []
    simpa [process, changeSet.index] using this
  have h2 : knownStatesFor n (states.map (Message.LinkMessage n)) = states := by
    clear h1
    induction states with
    | nil => rfl
    | cons s rest ih =>
      have hs : s ∈ knownOperStates := hknown s (List.mem_cons_self s rest)
      have hr := ih (fun t ht => hknown t (List.mem_cons_of_mem s ht))
      simp only [knownStatesFor] at hr ⊢
      simp [List.filterMap_cons, hs, hr]
  refine ⟨h1 msgs, ?_, ?_, ?_⟩
  · rw [h1 msgs]
    simp [changesFor]
  · rw [h1, changesFor, h2]
  · rw [h1, changesFor, h2, List.length_map]

/-- C3 on a batch with two interfaces, a route message, an unknown code and a
repeated state. -/
theorem process_index_witness :
    changeSet.index (process sampleConsts
      [.LinkMessage "eth0" 0, .other 24, .LinkMessage "eth1" 6, .LinkMessage "eth0" 9,
        .LinkMessage "eth0" 2, .LinkMessage "eth0" 2]) "eth0" = [1, 3, 3] ∧
    changeSet.index (process sampleConsts
      ([0, 2, 2, 0].map (Message.LinkMessage "eth0"))) "eth0" = [1, 3, 3, 1] := by
  have h := process_index sampleConsts
    [.LinkMessage "eth0" 0, .other 24, .LinkMessage "eth1" 6, .LinkMessage "eth0" 9,
      .LinkMessage "eth0" 2, .LinkMessage "eth0" 2] "eth0" [0, 2, 2, 0] (by decide)
  exact ⟨h.1.trans (by decide), h.2.2.1.trans (by decide)⟩

/-- C4: `process` gives the same change-set on a batch and on the batch with
every non-link message and every link message of unknown code removed: same
keys, same lists, same order. -/
theorem process_skips (K : ChangeConsts) (msgs : List Message) :
    process K msgs = process K (msgs.filter retained) ∧
    changeSet.keys (process K msgs) = changeSet.keys (process K (msgs.filter retained)) ∧
    ∀ n : String, changeSet.index (process K msgs) n =
      changeSet.index (process K (msgs.filter retained)) n := by
  have h : process K msgs = process K (msgs.filter retained) :=
    (foldl_processStep_filter K msgs []).symm
  exact ⟨h, by rw [← h], fun n => by rw [← h]⟩

/-! ## The watch loop -/

/-- C5: when a receive fails and the context has fired, `watch` returns the
result of the observer goroutine: nil when setting the read deadline succeeded,
the wrapped "failed to interrupt watcher" error when it failed; the result is
the same whatever the receive error was, and is never the wrapped receive
error. -/
theorem watch_canceled (K : ChangeConsts) (batches : List (List Message)) (e : Error)
    (rest : List Received) (dl : Option Error) :
    (watch K ⟨none, batches.map .msgs ++ .err e true :: rest, dl⟩).result =
      some (dl.map fun d => .wrapped "netstate: failed to interrupt watcher: " d) ∧
    (watch K ⟨none, batches.map .msgs ++ .err e true :: rest, dl⟩).observer =
      .returned (dl.map fun d => .wrapped "netstate: failed to interrupt watcher: " d) ∧
    (∀ e2 : Error,
      (watch K ⟨none, batches.map .msgs ++ .err e2 true :: rest, dl⟩).result =
        (watch K ⟨none, batches.map .msgs ++ .err e true :: rest, dl⟩).result) ∧
    (watch K ⟨none, batches.map .msgs ++ .err e true :: rest, dl⟩).result ≠
      some (some (.wrapped "netstate: watcher failed to listen for route netlink messages: " e)) ∧
    (watch K ⟨none, batches.map .msgs ++ .err e true :: rest, dl⟩).events =
      .dial :: .go :: (cycles K batches ++ [.receive, .wait, .close]) := by
  have h : ∀ e2 : Error,
      watch K ⟨none, batches.map .msgs ++ .err e2 true :: rest, dl⟩ =
        ⟨.dial :: .go :: (cycles K batches ++ [.receive, .wait, .close]),
          some (dl.map fun d => .wrapped "netstate: failed to interrupt watcher: " d),
          .returned (dl.map fun d => .wrapped "netstate: failed to interrupt watcher: " d)⟩ := by
    intro e2
    simp only [watch, watchLoop_msgs_append]
    cases dl <;> rfl
  refine ⟨by rw [h], by rw [h], fun e2 => by rw [h, h], ?_, by rw [h]⟩
  rw [h]
  cases dl with
  | none => simp
  | some d =>
    intro hc
    simp only [Option.map_some', Option.some.injEq, Error.wrapped.injEq] at hc
    exact absurd hc.1 (by decide)

/-- C6: when a receive fails while the context has not fired, `watch` returns
the receive error wrapped with "watcher failed to listen for route netlink
messages"; after the failed receive it only closes the connection: no further
receive, no further notify. -/
theorem watch_transport_failure (K : ChangeConsts) (batches : List (List Message)) (e : Error)
    (rest : List Received) (dl : Option Error) :
    (watch K ⟨none, batches.map .msgs ++ .err e false :: rest, dl⟩).result =
      some (some (.wrapped "netstate: watcher failed to listen for route netlink messages: " e)) ∧
    (watch K ⟨none, batches.map .msgs ++ .err e false :: rest, dl⟩).events =
      .dial :: .go :: (cycles K batches ++ [.receive, .close]) ∧
    notifyCalls (watch K ⟨none, batches.map .msgs ++ .err e false :: rest, dl⟩).events =
      batches.map (process K) ∧
    ((watch K ⟨none, batches.map .msgs ++ .err e false :: rest, dl⟩).events.filter
      (fun ev => decide (ev = .receive))).length = batches.length + 1 := by
  have h : watch K ⟨none, batches.map .msgs ++ .err e false :: rest, dl⟩ =
      ⟨.dial :: .go :: (cycles K batches ++ [.receive, .close]),
        some (some (.wrapped "netstate: watcher failed to listen for route netlink messages: " e)),
        .blocked⟩ := by
    simp only [watch, watchLoop_msgs_append]
    rfl
  have hr : ∀ bs : List (List Message),
      ((cycles K bs).filter (fun ev => decide (ev = Event.receive))).length = bs.length := by
    intro bs
    induction bs with
    | nil => rfl
    | cons b bs ih =>
      have hc : cycles K (b :: bs) = .receive :: .notify (process K b) :: cycles K bs := by
        simp [cycles, List.flatMap_cons]
      rw [hc]
      simp [List.filter_cons, ih]
  refine ⟨by rw [h], by rw [h], ?_, ?_⟩
  · rw [h]
    simp [notifyCalls, notifyCalls_append, notifyCalls_cycles]
  · rw [h]
    simp [List.filter_cons, List.filter_append, hr]

/-- C9: for every sequence of receive outcomes, the `notify` calls of `watch`
are `process` of each batch received before the first failed receive, one call
per batch, in receive order; after a batch (empty change-set or not) the loop
notifies once and goes on with the next receive, and the outcome of the run is
that of the rest. -/
theorem watch_notifies_each_batch (K : ChangeConsts) (recvs : List Received)
    (dl : Option Error) (batch : List Message) :
    notifyCalls (watch K ⟨none, recvs, dl⟩).events = (batchesReceived recvs).map (process K) ∧
    (notifyCalls (watch K ⟨none, recvs, dl⟩).events).length = (batchesReceived recvs).length ∧
    (watch K ⟨none, .msgs batch :: recvs, dl⟩).events =
      .dial :: .go :: .receive :: .notify (process K batch) ::
        (watch K ⟨none, recvs, dl⟩).events.drop 2 ∧
    (watch K ⟨none, .msgs batch :: recvs, dl⟩).result = (watch K ⟨none, recvs, dl⟩).result ∧
    (watch K ⟨none, [.msgs batch], dl⟩).result = none ∧
    (watch K ⟨none, [.msgs batch], dl⟩).events =
      [.dial, .go, .receive, .notify (process K batch), .receive] := by
  have h := notifyCalls_watch K ⟨none, recvs, dl⟩ rfl
  refine ⟨h, ?_, rfl, rfl, rfl, rfl⟩
  rw [h, List.length_map]

/-- C8: on platforms other than Linux, `watch` returns a non-nil error for
every context, whatever its state, and makes no call on any source: the error
reads "netstate: Watcher not implemented on" the platform, and wraps
`os.ErrNotExist`. -/
theorem watchOthers_unsupported (GOOS : String) (ctxDone : Bool) :
    (watchOthers GOOS ctxDone).events = [] ∧
    (watchOthers GOOS ctxDone).result ≠ none ∧
    (watchOthers GOOS ctxDone).result ≠ some none ∧
    (watchOthers GOOS ctxDone).result =
      some (some (.wrapped ("netstate: Watcher not implemented on " ++ quote GOOS ++ ": ")
        ErrNotExist)) ∧
    ∃ err : Error, (watchOthers GOOS ctxDone).result = some (some err) ∧
      err.unwrap = some ErrNotExist ∧
      err.text = "netstate: Watcher not implemented on " ++ quote GOOS ++ ": " ++
        "file does not exist" := by
  refine ⟨rfl, ?_, ?_, rfl, _, rfl, rfl, rfl⟩ <;> simp [watchOthers]

/-! ## The cancellation observer -/

/-- C10, as stated, fails: a receive that fails while the context has not fired
makes `watch` return the wrapped receive error, after a successful dial, while
the observer goroutine is still blocked on the context. -/
theorem observer_blocked_after_transport_failure :
    (⟨none, [.err (.plain "recvmsg: no buffer space available") false], none⟩ : Conn).dial
      = none ∧
    (watch sampleConsts
      ⟨none, [.err (.plain "recvmsg: no buffer space available") false], none⟩).result =
      some (some (.wrapped "netstate: watcher failed to listen for route netlink messages: "
        (.plain "recvmsg: no buffer space available"))) ∧
    (watch sampleConsts
      ⟨none, [.err (.plain "recvmsg: no buffer space available") false], none⟩).observer =
      .blocked ∧
    ¬ ∃ err, (watch sampleConsts
      ⟨none, [.err (.plain "recvmsg: no buffer space available") false], none⟩).observer =
      .returned err := by
  refine ⟨rfl, rfl, rfl, ?_⟩
  rintro ⟨err, h⟩
  change Observer.blocked = Observer.returned err at h
  cases h

/-- C10, amended: when `watch` returns after a failed receive, the observer has
terminated exactly when the context had fired. On the cancellation path `watch`
waits for the observer before it closes the connection and returns the
observer's result; on the transport-failure path it returns while the observer
is still blocked on the context. -/
theorem observer_state_on_return (K : ChangeConsts) (batches : List (List Message)) (e : Error)
    (ctxErr : Bool) (rest : List Received) (dl : Option Error) :
    (watch K ⟨none, batches.map .msgs ++ .err e ctxErr :: rest, dl⟩).result ≠ none ∧
    (watch K ⟨none, batches.map .msgs ++ .err e ctxErr :: rest, dl⟩).observer =
      observer ctxErr dl ∧
    ((∃ err, (watch K ⟨none, batches.map .msgs ++ .err e ctxErr :: rest, dl⟩).observer =
      .returned err) ↔ ctxErr = true) ∧
    ((watch K ⟨none, batches.map .msgs ++ .err e ctxErr :: rest, dl⟩).observer = .blocked ↔
      ctxErr = false) ∧
    (ctxErr = true →
      (watch K ⟨none, batches.map .msgs ++ .err e ctxErr :: rest, dl⟩).observer =
        .returned (dl.map fun d => .wrapped "netstate: failed to interrupt watcher: " d) ∧
      (watch K ⟨none, batches.map .msgs ++ .err e ctxErr :: rest, dl⟩).result =
        some (dl.map fun d => .wrapped "netstate: failed to interrupt watcher: " d) ∧
      (watch K ⟨none, batches.map .msgs ++ .err e ctxErr :: rest, dl⟩).events =
        .dial :: .go :: (cycles K batches ++ [.receive, .wait, .close])) := by
  cases ctxErr with
  | false =>
    have h : watch K ⟨none, batches.map .msgs ++ .err e false :: rest, dl⟩ =
        ⟨.dial :: .go :: (cycles K batches ++ [.receive, .close]),
          some (some (.wrapped
            "netstate: watcher failed to listen for route netlink messages: " e)),
          .blocked⟩ := by
      simp only [watch, watchLoop_msgs_append]
      rfl
    rw [h]
    simp [observer]
  | true =>
    have h : watch K ⟨none, batches.map .msgs ++ .err e true :: rest, dl⟩ =
        ⟨.dial :: .go :: (cycles K batches ++ [.receive, .wait, .close]),
          some (dl.map fun d => .wrapped "netstate: failed to interrupt watcher: " d),
          .returned (dl.map fun d => .wrapped "netstate: failed to interrupt watcher: " d)⟩ := by
      simp only [watch, watchLoop_msgs_append]
      cases dl <;> rfl
    rw [h]
    cases dl <;> simp [observer]

/-- C10, amended, at two runs: a forced timeout after cancellation, where the
observer has returned nil, and a transport failure, where it is still
blocked. -/
theorem observer_state_on_return_witness :
    (watch sampleConsts
      ⟨none, [.msgs [.LinkMessage "eth0" 2], .err (.plain "i/o timeout") true], none⟩).observer =
      .returned none ∧
    (watch sampleConsts
      ⟨none, [.msgs [.LinkMessage "eth0" 2], .err (.plain "i/o timeout") true], none⟩).result =
      some none ∧
    (watch sampleConsts
      ⟨none, [.msgs [.LinkMessage "eth0" 2], .err (.plain "bad file descriptor") false],
        none⟩).observer = .blocked :=
  ⟨((observer_state_on_return sampleConsts [[.LinkMessage "eth0" 2]] (.plain "i/o timeout")
      true [] none).2.2.2.2 rfl).1,
    ((observer_state_on_return sampleConsts [[.LinkMessage "eth0" 2]] (.plain "i/o timeout")
      true [] none).2.2.2.2 rfl).2.1,
    (observer_state_on_return sampleConsts [[.LinkMessage "eth0" 2]]
      (.plain "bad file descriptor") false [] none).2.2.2.1.mpr rfl⟩

/-! ## Delivery to a subscription -/

/-- C7: for a subscription on interface `X` with filter `Any`, registered before
the run, the values delivered on its channel over a run of `Watch` are, after
what it held before, the concatenation over the batches received, in order, of
`process(batch)[X]`: every change for `X` in arrival order, none of another
interface. -/
theorem Watch_delivers_any (K : ChangeConsts) (subs : List Subscription) (conn : Conn)
    (i : Nat) (s : Subscription) (hdial : conn.dial = none) (hs : subs[i]? = some s)
    (hf : s.filter = .any) :
    (Watch K subs conn).1[i]? =
      some { s with delivered := s.delivered ++
        (batchesReceived conn.receives).flatMap fun b => changeSet.index (process K b) s.iface } ∧
    (batchesReceived conn.receives).flatMap (fun b => changeSet.index (process K b) s.iface) =
      (batchesReceived conn.receives).flatMap (fun b => changesFor K s.iface b) := by
  constructor
  · simp only [Watch]
    rw [notifyCalls_watch K conn hdial]
    exact getElem?_foldl_notify K _ subs i s hs hf
  · congr 1
    funext b
    have := index_foldl_processStep K s.iface b []
    simpa [process, changeSet.index] using this

/-- C7 on the run of the test: one subscription with filter `Any` on the dummy
interface, beside one on another interface; the interface is reported unknown,
down, unknown, then the context is canceled. The subscriber gets
`[LinkUnknown, LinkDown, LinkUnknown]` and `Watch` returns nil. -/
theorem Watch_delivers_any_witness :
    (Watch sampleConsts
      [⟨"lsdummy7", .any, []⟩, ⟨"eth0", .any, []⟩]
      ⟨none, [.msgs [.LinkMessage "lsdummy7" OperStateUnknown, .LinkMessage "eth0" OperStateUp],
        .msgs [.LinkMessage "lsdummy7" OperStateDown],
        .msgs [.other 20, .LinkMessage "lsdummy7" OperStateUnknown],
        .err (.plain "i/o timeout") true], none⟩).1[0]? =
      some ⟨"lsdummy7", .any,
        [sampleConsts.LinkUnknown, sampleConsts.LinkDown, sampleConsts.LinkUnknown]⟩ ∧
    (Watch sampleConsts
      [⟨"lsdummy7", .any, []⟩, ⟨"eth0", .any, []⟩]
      ⟨none, [.msgs [.LinkMessage "lsdummy7" OperStateUnknown, .LinkMessage "eth0" OperStateUp],
        .msgs [.LinkMessage "lsdummy7" OperStateDown],
        .msgs [.other 20, .LinkMessage "lsdummy7" OperStateUnknown],
        .err (.plain "i/o timeout") true], none⟩).2 = some none :=
  ⟨(Watch_delivers_any sampleConsts
      [⟨"lsdummy7", .any, []⟩, ⟨"eth0", .any, []⟩]
      ⟨none, [.msgs [.LinkMessage "lsdummy7" OperStateUnknown, .LinkMessage "eth0" OperStateUp],
        .msgs [.LinkMessage "lsdummy7" OperStateDown],
        .msgs [.other 20, .LinkMessage "lsdummy7" OperStateUnknown],
        .err (.plain "i/o timeout") true], none⟩
      0 ⟨"lsdummy7", .any, []⟩ rfl rfl rfl).1.trans (by decide),
    by decide⟩

end Netstate
